import Mathlib

/-!
Shallow embedding of the distil-tile-transform tile analytics pipeline.

The Go sources embedded here are:
* `analytics/operations.go` — the `Transformer` operations (`MeanNDVI`, `Mean`,
  the `CategoryCounts` family) and their shared counting core;
* `analytics/geo.go` — `GeoBounds` and the geobounds derivation performed by
  `loadGeoImage` from the source affine geotransform;
* the `main` package (`createTileMap`, `insertSorted`, `processTiles`,
  `tileWorker`) — tile-catalog construction, ordered insertion and the worker
  pool.

Modelling conventions: Go strings are `List Char`; Go `float64` values are
modelled as exact rationals `ℚ` (the pipeline widens 8/16-bit integer raster
samples to `float64`, so the arithmetic of interest is exact); Go `int32`/`int`
conversions from `float64` are modelled as truncation toward zero, which is the
Go behaviour for all in-range values; Go map lookups that rely on the
zero-value-for-missing-key semantics are modelled as total functions with
default `0`; `gdal` file I/O is abstracted as a partial map from path to decoded
image.
-/

/-- Go strings, modelled as lists of characters. -/
abbrev Str := List Char

/-- The `analytics.Tile` structure: geospatial tile information parsed from a
file name (`operations.go`). -/
structure Tile where
  GeoHash : Str
  Date : Str
  Timestamp : Int
deriving DecidableEq, Repr, Inhabited

/-- The `analytics.GeoBounds` structure: a rectangular geographic boundary
(`geo.go`). -/
structure GeoBounds where
  MinLon : ℚ
  MinLat : ℚ
  MaxLon : ℚ
  MaxLat : ℚ
deriving DecidableEq, Repr, Inhabited

/-- The `analytics.GeoImage` structure: a decoded single-band raster, its
dimensions, and its geobounds (`geo.go`). -/
structure GeoImage where
  Data : List ℚ
  XSize : ℕ
  YSize : ℕ
  Bounds : GeoBounds
deriving DecidableEq, Repr, Inhabited

/-- The six-entry affine geotransform returned by `gdalDataset.GeoTransform()`
in `loadGeoImage` (`geo.go`): `tx0`..`tx5` are `tx[0]`..`tx[5]`. -/
structure GeoTransform where
  tx0 : ℚ
  tx1 : ℚ
  tx2 : ℚ
  tx3 : ℚ
  tx4 : ℚ
  tx5 : ℚ
deriving DecidableEq, Repr

/-- The geobounds computation performed by `loadGeoImage` (`geo.go`, the
`bounds := GeoBounds{...}` block): each field is an affine combination of the
geotransform entries, with no min/max applied. -/
def loadGeoImage_bounds (tx : GeoTransform) (xSize ySize : ℕ) : GeoBounds :=
  { MinLon := tx.tx0
    MinLat := tx.tx3 + (xSize : ℚ) * tx.tx4 + (ySize : ℚ) * tx.tx5
    MaxLon := tx.tx0 + (xSize : ℚ) * tx.tx1 + (ySize : ℚ) * tx.tx2
    MaxLat := tx.tx3 }

/-- Go's conversion of a `float64` to a signed integer type (`int32(v)`,
`int(v)` in `operations.go`): truncation toward zero. Modelled for in-range
values (out-of-range `float64`→`int32` conversion is implementation-specific
in Go and never reached by the theorems below). -/
def truncToInt (q : ℚ) : ℤ :=
  q.num.tdiv q.den

/-- The body of the pixel loop of `MeanNDVI.Transform` (`operations.go`):
`transformedValue` starts at `0`, and when either input is nonzero it becomes
`math.Max(0, float64(int32(value0)-int32(value1))/float64(int32(value0)+int32(value1)))`. -/
def ndviPixel (value0 value1 : ℚ) : ℚ :=
  if value0 ≠ 0 ∨ value1 ≠ 0 then
    max 0 (((truncToInt value0 - truncToInt value1 : ℤ) : ℚ) /
      ((truncToInt value0 + truncToInt value1 : ℤ) : ℚ))
  else 0

/-- The accumulation loop of `MeanNDVI.Transform` (`operations.go`): sums
`ndviPixel` over the indices of `image0` (reading `image1` at the same index)
and divides by the number of iterations. -/
def meanNDVI_core (image0 image1 : List ℚ) : ℚ :=
  (((List.range image0.length).map
    (fun i => ndviPixel (image0.getD i 0) (image1.getD i 0))).sum) /
    (image0.length : ℚ)

/-- `MeanNDVI.Transform` (`operations.go`): computes the mean clamped NDVI of
the first two images and always returns a nil error. -/
def MeanNDVI_Transform (tileData : List GeoImage) : Except String (List ℚ) :=
  Except.ok [meanNDVI_core (tileData.getD 0 default).Data (tileData.getD 1 default).Data]

/-- Modelled from the spec: the per-pixel value the specification ascribes to
`MeanNDVI` — `max(0, (nir - red) / (nir + red))`, treating the ratio as `0`
when both inputs are zero. Used only to compare the spec's formula with the
source's `ndviPixel`. -/
def specNDVIPixel (nir red : ℚ) : ℚ :=
  if nir = 0 ∧ red = 0 then 0 else max 0 ((nir - red) / (nir + red))

/-- Test fixture: a `GeoImage` holding the given samples as a `length × 1`
raster with default bounds. -/
def mkImage (d : List ℚ) : GeoImage :=
  { Data := d, XSize := d.length, YSize := 1, Bounds := default }

/-- The `analytics.CategoryData` structure: a category label and its numeric
raster value (`operations.go`). -/
structure CategoryData where
  Value : Int
  Label : String
deriving DecidableEq, Repr

/-- The `analytics.CategoryCounts` structure (`operations.go`). `IndexMap` is a
Go `map[int]int`; since the source only ever reads it with the defaulting
lookup `c.IndexMap[value]` (zero value `0` for a missing key), it is modelled
as a total function with default `0`. -/
structure CategoryCounts where
  Categories : List CategoryData
  IndexMap : Int → Nat

/-- The metadata document consumed by `NewCategoryCounts`: presence or absence
of the two JSON arrays `properties.discrete_classification_class_names` and
`properties.discrete_classification_class_values` (`operations.go`). `none`
models a missing or non-array field (gjson `!result.IsArray()`). -/
structure Metadata where
  classNames : Option (List String)
  classValues : Option (List Int)

/-- `getCategoryNames` (`operations.go`): errors when the names field is
missing or not an array, otherwise yields the label list. -/
def getCategoryNames (md : Metadata) : Except String (List String) :=
  match md.classNames with
  | none => Except.error "failed to find array discrete_classification_class_names in metadata"
  | some names => Except.ok names

/-- `getCategoryValues` (`operations.go`): errors when the values field is
missing or not an array, otherwise converts each entry with `uint16(result.Int())`
(reduction modulo 2^16). -/
def getCategoryValues (md : Metadata) : Except String (List Int) :=
  match md.classValues with
  | none => Except.error "failed to find array discrete_classification_class_values in metadata"
  | some vs => Except.ok (vs.map (fun v => Int.emod v 65536))

/-- Outcome of a Go constructor that can return a value, return an error, or
panic at runtime. -/
inductive ConstructResult (α : Type) where
  | ok : α → ConstructResult α
  | err : String → ConstructResult α
  | panicked : ConstructResult α

/-- The `for idx := range values` loop of `NewCategoryCounts`
(`operations.go`), iterating over the remaining suffix of `values` while `idx`
tracks the current position: it reads `labels[idx]` — which panics with an
index-out-of-range runtime error (modelled as `none`) when
`idx ≥ len(labels)` — then records `indexMap[value] = idx` and
`categories[idx]`. -/
def buildCategoriesLoop (labels : List String) (idx : Nat)
    (indexMap : Int → Nat) (categories : List CategoryData) :
    List Int → Option ((Int → Nat) × List CategoryData)
  | [] => some (indexMap, categories)
  | value :: restValues =>
    match labels[idx]? with
    | none => none
    | some label =>
      buildCategoriesLoop labels (idx + 1)
        (fun v => if v = value then idx else indexMap v)
        (categories ++ [{ Value := value, Label := label }]) restValues

/-- `NewCategoryCounts` (`operations.go`): fetches labels then values from the
metadata (propagating their errors), then builds the index map and category
list; `ConstructResult.panicked` is the runtime panic raised when the labels
array is shorter than the values array. -/
def NewCategoryCounts (md : Metadata) : ConstructResult CategoryCounts :=
  match getCategoryNames md with
  | Except.error e => ConstructResult.err e
  | Except.ok labels =>
    match getCategoryValues md with
    | Except.error e => ConstructResult.err e
    | Except.ok values =>
      match buildCategoriesLoop labels 0 (fun _ => 0) [] values with
      | none => ConstructResult.panicked
      | some im => ConstructResult.ok { Categories := im.2, IndexMap := im.1 }

/-- Increment the entry of a count vector at the given index (the Go statement
`categoryCounts[index]++` in `computeCounts`, `operations.go`). -/
def incAt : List ℚ → Nat → List ℚ
  | [], _ => []
  | x :: xs, 0 => (x + 1) :: xs
  | x :: xs, Nat.succ n => x :: incAt xs n

/-- `computeCounts` (`operations.go`): fails when no categories are configured,
otherwise counts the pixels of the first image per category index, where each
pixel value is converted with `int(val)` and looked up through the defaulting
`IndexMap`. -/
def computeCounts (c : CategoryCounts) (tileData : List GeoImage) : Except String (List ℚ) :=
  if c.Categories.length = 0 then Except.error "labels unspecified"
  else Except.ok ((tileData.getD 0 default).Data.foldl
    (fun categoryCounts val => incAt categoryCounts (c.IndexMap (truncToInt val)))
    (List.replicate c.Categories.length 0))

/-- `CategoryCountsRaw.Transform` (`operations.go`): the raw counting core. -/
def CategoryCountsRaw_Transform (c : CategoryCounts) (tileData : List GeoImage) :
    Except String (List ℚ) :=
  computeCounts c tileData

/-- `CategoryCountsPercentage.Transform` (`operations.go`): the raw counts,
each divided by `XSize * YSize` of the first image. -/
def CategoryCountsPercentage_Transform (c : CategoryCounts) (tileData : List GeoImage) :
    Except String (List ℚ) :=
  match computeCounts c tileData with
  | Except.error e => Except.error e
  | Except.ok counts =>
    Except.ok (counts.map (fun count =>
      count / (((tileData.getD 0 default).XSize * (tileData.getD 0 default).YSize : ℕ) : ℚ)))

/-- Numeric value of an ASCII digit character, as accepted by Go's
`time.Parse` numeric fields (`format.go` `getnum`). -/
def digitVal (c : Char) : Option ℕ :=
  if c.isDigit then some (c.toNat - 48) else none

/-- A fixed two-digit zero-padded numeric field of a Go time layout. -/
def num2 (a b : Char) : Option ℕ := do
  let x ← digitVal a
  let y ← digitVal b
  pure (10 * x + y)

/-- The four-digit year field of a Go time layout (`2006`). -/
def num4 (a b c d : Char) : Option ℕ := do
  let x ← num2 a b
  let y ← num2 c d
  pure (100 * x + y)

/-- Go's leap-year rule (`time.isLeap`). -/
def isLeapYear (year : ℕ) : Bool :=
  year % 4 = 0 && (year % 100 ≠ 0 || year % 400 = 0)

/-- Go's `time.daysIn`: number of days in a month. -/
def daysInMonth (year month : ℕ) : ℕ :=
  if month = 2 then (if isLeapYear year then 29 else 28)
  else if month = 4 ∨ month = 6 ∨ month = 9 ∨ month = 11 then 30
  else 31

/-- The fields produced by parsing a date token. -/
structure ParsedTime where
  year : ℕ
  month : ℕ
  day : ℕ
  hour : ℕ
  minute : ℕ
  second : ℕ
deriving DecidableEq, Repr

/-- Go's `time.Parse` specialised to the fixed layout string
`"20060102T030405"` used by `createTileMap` (`main` package). The layout is
four-digit year, two-digit month, two-digit day, literal `T`, then the
TWELVE-hour-clock hour specifier `03` (Go accepts `0 ≤ hour ≤ 12` for it, and
with no AM/PM field the hour is kept as parsed), two-digit minute and second.
Month, day-in-month, minute and second are range-checked as in Go. -/
def parseDateToken (s : Str) : Option ParsedTime :=
  match s with
  | [y1, y2, y3, y4, mo1, mo2, d1, d2, tc, h1, h2, mi1, mi2, s1, s2] =>
    if tc = 'T' then do
      let year ← num4 y1 y2 y3 y4
      let month ← num2 mo1 mo2
      let day ← num2 d1 d2
      let hour ← num2 h1 h2
      let minute ← num2 mi1 mi2
      let second ← num2 s1 s2
      if 1 ≤ month ∧ month ≤ 12 ∧ 1 ≤ day ∧ day ≤ daysInMonth year month ∧
          hour ≤ 12 ∧ minute ≤ 59 ∧ second ≤ 59 then
        some { year := year, month := month, day := day,
               hour := hour, minute := minute, second := second }
      else none
    else none
  | _ => none

/-- Days between a civil date and the Unix epoch (the standard
days-from-civil computation underlying Go's `Time.Unix`). -/
def daysFromCivil (y m d : ℤ) : ℤ :=
  let yAdj := if m ≤ 2 then y - 1 else y
  let era := Int.fdiv yAdj 400
  let yoe := yAdj - era * 400
  let mp := Int.fmod (m + 9) 12
  let doy := (153 * mp + 2) / 5 + d - 1
  let doe := yoe * 365 + yoe / 4 - yoe / 100 + doy
  era * 146097 + doe - 719468

/-- `date.Unix()` for a time parsed in UTC (`createTileMap` stores it in
`Tile.Timestamp`). -/
def unixOf (pt : ParsedTime) : ℤ :=
  daysFromCivil pt.year pt.month pt.day * 86400 +
    pt.hour * 3600 + pt.minute * 60 + pt.second

/-- Go's `strings.Split(s, sep)` for a one-character separator
(`createTileMap` splits file names on `"_"`). -/
def splitOnChar (c : Char) : Str → List Str
  | [] => [[]]
  | x :: xs =>
    if x = c then [] :: splitOnChar c xs
    else
      match splitOnChar c xs with
      | [] => [[x]]
      | h :: t => (x :: h) :: t

/-- The per-entry parsing step of `createTileMap` (`main` package): split the
file name on `_`; require at least two segments; the first is the tile id, the
second the date token, which must parse with `parseDateToken`; the resulting
timestamp is `date.Unix()`. -/
def parseName (name : Str) : Option (Str × Str × ℤ) :=
  match splitOnChar '_' name with
  | id :: dateString :: _ =>
    match parseDateToken dateString with
    | none => none
    | some pt => some (id, dateString, unixOf pt)
  | _ => none

/-- The metadata file name excluded by `createTileMap` (`main` package). -/
def metadataFileName : Str := "metadata.json".toList

/-- The dedup key `fmt.Sprintf("%s_%s", id, dateString)` of `createTileMap`. -/
def tileKey (id dateString : Str) : Str := id ++ '_' :: dateString

/-- Go's `sort.Search(n, f)` binary search loop: smallest index in `[i, j)`
satisfying `f` for a monotone `f`, else `j`. -/
def sortSearchAux (f : ℕ → Bool) (i j : ℕ) : ℕ :=
  if i < j then
    if f ((i + j) / 2) then sortSearchAux f i ((i + j) / 2)
    else sortSearchAux f ((i + j) / 2 + 1) j
  else i
termination_by j - i
decreasing_by all_goals simp_wf; omega

/-- Go's `sort.Search(n, f)` (`insertSorted` calls it with
`f(i) = tiles[i].Timestamp > t.Timestamp`). -/
def sortSearch (n : ℕ) (f : ℕ → Bool) : ℕ := sortSearchAux f 0 n

/-- `insertSorted` (`main` package): binary-searches the first index whose
timestamp exceeds the new tile's and inserts the tile there (the Go
`append`/`copy`/assign sequence realises exactly `take ++ t :: drop`). -/
def insertSorted (tiles : List Tile) (t : Tile) : List Tile :=
  let index := sortSearch tiles.length
    (fun i => decide ((tiles.getD i default).Timestamp > t.Timestamp))
  tiles.take index ++ t :: tiles.drop index

/-- The scan loop of `createTileMap` (`main` package): skip the metadata file,
skip unparseable names, skip already-seen (id, date) keys, and otherwise insert
the new tile into its location's sequence with `insertSorted`. The Go
`map[string][]analytics.Tile` is modelled as a total function defaulting to
the empty list. -/
def createTileMapLoop (files : List Str) (parsedTiles : List Str)
    (tileMap : Str → List Tile) : Str → List Tile :=
  match files with
  | [] => tileMap
  | name :: rest =>
    if name = metadataFileName then createTileMapLoop rest parsedTiles tileMap
    else
      match parseName name with
      | none => createTileMapLoop rest parsedTiles tileMap
      | some (id, dateString, ts) =>
        if tileKey id dateString ∈ parsedTiles then
          createTileMapLoop rest parsedTiles tileMap
        else
          createTileMapLoop rest (tileKey id dateString :: parsedTiles)
            (fun i => if i = id then
                insertSorted (tileMap id) { GeoHash := id, Date := dateString, Timestamp := ts }
              else tileMap i)

/-- `createTileMap` (`main` package) over an abstract directory listing. -/
def createTileMap (files : List Str) : Str → List Tile :=
  createTileMapLoop files [] (fun _ => [])

/-- Whether a directory entry parses to exactly the given (id, date) pair. -/
def nameMatches (id dateString : Str) (name : Str) : Bool :=
  match parseName name with
  | some (i, d, _) => i = id ∧ d = dateString
  | none => false

/-- Whether some non-metadata entry of the listing parses to the (id, date)
pair — i.e. the pair occurs among well-formed file names. -/
def hasEntry (files : List Str) (id dateString : Str) : Bool :=
  files.any (fun n => n ≠ metadataFileName ∧ nameMatches id dateString n)

/-- Outcome of running a piece of Go code that may call `os.Exit`: either a
normal value, or process termination with the given status code. -/
inductive ProcResult (α : Type) where
  | ok : α → ProcResult α
  | exit : ℕ → ProcResult α
deriving Repr

/-- The raster file system seen through `loadGeoImage`: a decoded image per
loadable path, `none` when opening or decoding the file fails. -/
def FileSys : Type := Str → Option GeoImage

/-- Go's `path.Join(dir, name)` for a clean directory path. -/
def pathJoin (dir name : Str) : Str := dir ++ '/' :: name

/-- The band file name `fmt.Sprintf("%s_%s_%s.tif", tile.GeoHash, tile.Date,
band)` built by the `Setup` methods (`operations.go`). -/
def bandFileName (tile : Tile) (band : Str) : Str :=
  tile.GeoHash ++ '_' :: tile.Date ++ '_' :: band ++ ".tif".toList

/-- The sentinel band-name constant `band8 = "B08"` (`operations.go`). -/
def band8 : Str := "B08".toList

/-- The sentinel band-name constant `band4 = "B04"` (`operations.go`). -/
def band4 : Str := "B04".toList

/-- `MeanNDVI.Setup` (`operations.go`): loads the B08 and B04 band files; on
either load error it logs and calls `os.Exit(1)` — it never returns a non-nil
error to its caller. -/
def meanNDVI_Setup (fs : FileSys) (inputDir : Str) (tile : Tile) :
    ProcResult (Except String (List GeoImage)) :=
  match fs (pathJoin inputDir (bandFileName tile band8)) with
  | none => ProcResult.exit 1
  | some band8Image =>
    match fs (pathJoin inputDir (bandFileName tile band4)) with
    | none => ProcResult.exit 1
    | some band4Image => ProcResult.ok (Except.ok [band8Image, band4Image])

/-- One output row as assembled by `tileWorker` (`main` package): tile id,
date (kept as the numeric timestamp that the source formats as `YYYY-MM-DD`),
the geobounds of the first decoded band, and the computed values (the source
then renders the numbers as strings). -/
structure Row where
  tileId : Str
  timestamp : ℤ
  bounds : GeoBounds
  values : List ℚ
deriving DecidableEq, Repr

/-- The per-worker mutable state of `tileWorker` (`main` package): collected
rows, the per-stage error counters and the retained most recent errors. -/
structure WorkerState where
  rows : List Row
  setupErrCount : ℕ
  lastSetupErr : Option String
  transformErrCount : ℕ
  lastTransformErr : Option String
deriving Repr

/-- The initial state of a worker. -/
def initWorkerState : WorkerState :=
  { rows := [], setupErrCount := 0, lastSetupErr := none,
    transformErrCount := 0, lastTransformErr := none }

/-- The `for tile := range tiles` loop of `tileWorker` (`main` package),
generic in the operation's `Setup` and `Transform`: a `Setup` error skips the
tile and bumps `setupErrCount`, a `Transform` error skips the tile and bumps
`transformErrCount`, and a success appends the assembled row; an `os.Exit`
inside `Setup` terminates the whole process. -/
def tileWorkerLoop (setup : Tile → ProcResult (Except String (List GeoImage)))
    (transform : List GeoImage → Except String (List ℚ))
    (tiles : List Tile) (st : WorkerState) : ProcResult WorkerState :=
  match tiles with
  | [] => ProcResult.ok st
  | tile :: rest =>
    match setup tile with
    | ProcResult.exit n => ProcResult.exit n
    | ProcResult.ok (Except.error e) =>
      tileWorkerLoop setup transform rest
        { st with setupErrCount := st.setupErrCount + 1, lastSetupErr := some e }
    | ProcResult.ok (Except.ok images) =>
      match transform images with
      | Except.error e =>
        tileWorkerLoop setup transform rest
          { st with transformErrCount := st.transformErrCount + 1,
                    lastTransformErr := some e }
      | Except.ok values =>
        tileWorkerLoop setup transform rest
          { st with rows := st.rows ++
              [{ tileId := tile.GeoHash, timestamp := tile.Timestamp,
                 bounds := (images.getD 0 default).Bounds, values := values }] }

/-- The effect of the worker body on a single tile when `Setup` reports
failures as ordinary errors (no `os.Exit`): `none` when either stage fails,
otherwise the assembled row. -/
def processTile (setup : Tile → Except String (List GeoImage))
    (transform : List GeoImage → Except String (List ℚ)) (tile : Tile) : Option Row :=
  match setup tile with
  | Except.error _ => none
  | Except.ok images =>
    match transform images with
    | Except.error _ => none
    | Except.ok values =>
      some { tileId := tile.GeoHash, timestamp := tile.Timestamp,
             bounds := (images.getD 0 default).Bounds, values := values }

/-- The rows one worker contributes for its share of the queue, under a
non-exiting operation. -/
def workerRows (setup : Tile → Except String (List GeoImage))
    (transform : List GeoImage → Except String (List ℚ)) (tiles : List Tile) : List Row :=
  match tileWorkerLoop (fun t => ProcResult.ok (setup t)) transform tiles initWorkerState with
  | ProcResult.ok st => st.rows
  | ProcResult.exit _ => []

/-- The multiset of rows collected by `processTiles` (`main` package): the
workers' contributions merged through the results channel. The channel-based
scheduler is modelled by its delivery guarantee — each queued tile is consumed
by exactly one worker — so a schedule is any split `batches` of the tile array
with `batches.flatten` a permutation of it; row order across workers is
nondeterministic, hence the multiset. -/
def poolRows (setup : Tile → Except String (List GeoImage))
    (transform : List GeoImage → Except String (List ℚ))
    (batches : List (List Tile)) : Multiset Row :=
  ((batches.map (workerRows setup transform)).flatten : List Row)

/-- Test fixture for the category operations: metadata with labels
`["water", "forest"]` and values `[1, 2]`. -/
def md4 : Metadata := { classNames := some ["water", "forest"], classValues := some [1, 2] }

/-- The category operation built by `NewCategoryCounts` from `md4`. -/
def c4 : CategoryCounts :=
  match NewCategoryCounts md4 with
  | ConstructResult.ok c => c
  | _ => { Categories := [], IndexMap := fun _ => 0 }

/-- Test fixture: a tile whose B08 band file is missing. -/
def tile1 : Tile :=
  { GeoHash := "AAAA".toList, Date := "20200101T000000".toList, Timestamp := 1577836800 }

/-- Test fixture: a tile whose band files are all present. -/
def tile2 : Tile :=
  { GeoHash := "BBBB".toList, Date := "20200101T000000".toList, Timestamp := 1577836800 }

/-- Test fixture: the input directory path. -/
def dir0 : Str := "tiles".toList

/-- Test fixture: a raster file system on which every file decodes except
tile1's B08 band file. -/
def fs1 : FileSys := fun p =>
  if p = pathJoin dir0 (bandFileName tile1 band8) then none else some (mkImage [1])

/-- Test fixture: a `Setup` stage that always succeeds with one image. -/
def setup5 : Tile → Except String (List GeoImage) := fun _ => Except.ok [mkImage [1]]

/-- Test fixture: a `Transform` stage that always succeeds with no values. -/
def transform5 : List GeoImage → Except String (List ℚ) := fun _ => Except.ok []

/-- Test fixture: a single-category counting operation. -/
def c9c : CategoryCounts :=
  { Categories := [{ Value := 1, Label := "water" }], IndexMap := fun _ => 0 }

/-! Helper lemmas. -/

/-- Truncation of a natural-number-valued rational is the number itself. -/
theorem truncToInt_natCast (n : ℕ) : truncToInt (n : ℚ) = n := by
  simp [truncToInt, Rat.num_natCast, Rat.den_natCast, Int.tdiv_one]

/-- C2: on the inverted-Y-axis geotransform `tx = (0,1,0,10,0,1)` (positive
row scale factor `tx5 = 1`) with a 2×2 raster, `loadGeoImage` derives
`MinLat = 12` and `MaxLat = 10`: the derivation assumes a north-up transform
instead of taking min/max, so the claimed invariant `MinLat ≤ MaxLat` fails. -/
theorem loadGeoImage_bounds_inverted_y :
    (loadGeoImage_bounds { tx0 := 0, tx1 := 1, tx2 := 0, tx3 := 10, tx4 := 0, tx5 := 1 } 2 2).MinLat = 12 ∧
    (loadGeoImage_bounds { tx0 := 0, tx1 := 1, tx2 := 0, tx3 := 10, tx4 := 0, tx5 := 1 } 2 2).MaxLat = 10 ∧
    ¬ ((loadGeoImage_bounds { tx0 := 0, tx1 := 1, tx2 := 0, tx3 := 10, tx4 := 0, tx5 := 1 } 2 2).MinLat ≤
       (loadGeoImage_bounds { tx0 := 0, tx1 := 1, tx2 := 0, tx3 := 10, tx4 := 0, tx5 := 1 } 2 2).MaxLat) := by
  refine ⟨?_, ?_, ?_⟩ <;> norm_num [loadGeoImage_bounds]

/-- C1: running the worker over `[tile1, tile2]` on a file system where only
tile1's B08 band file fails to load terminates the whole process with exit
status 1 (because `MeanNDVI.Setup` calls `os.Exit(1)` instead of returning the
load error): tile1 is not skipped, no setup error is counted, and tile2 is
never processed. -/
theorem tileWorker_exits_on_band_load_failure :
    tileWorkerLoop (meanNDVI_Setup fs1 dir0) MeanNDVI_Transform [tile1, tile2] initWorkerState =
      ProcResult.exit 1 := by
  rfl

/-- C6: the date layout `"20060102T030405"` uses Go's 12-hour-clock hour
specifier `03`, so the well-formed 24-hour token `20200101T130000` (hour 13)
fails to parse and its tile is dropped from the catalog, while hours up to 12
parse. -/
theorem createTileMap_rejects_hour13 :
    parseDateToken "20200101T130000".toList = none ∧
    parseDateToken "20200101T120000".toList =
      some { year := 2020, month := 1, day := 1, hour := 12, minute := 0, second := 0 } ∧
    createTileMap ["A1_20200101T130000_B08.tif".toList] "A1".toList = [] := by
  exact ⟨by decide, by decide, by decide⟩

/-- The construction loop of `NewCategoryCounts` panics (returns `none`) as
soon as the running index reaches the end of the labels list while values
remain. -/
theorem buildCategoriesLoop_short_labels :
    ∀ (values : List Int) (labels : List String) (idx : ℕ) (im : Int → Nat)
      (cats : List CategoryData),
      idx ≤ labels.length → labels.length < idx + values.length →
      buildCategoriesLoop labels idx im cats values = none := by
  intro values
  induction values with
  | nil => intro labels idx im cats h1 h2; simp at h2; omega
  | cons v rest ih =>
    intro labels idx im cats h1 h2
    by_cases h : idx < labels.length
    · rw [buildCategoriesLoop, List.getElem?_eq_getElem h]
      exact ih labels (idx + 1) _ _ (by omega) (by simp at h2 ⊢; omega)
    · rw [buildCategoriesLoop, List.getElem?_eq_none (by omega)]

/-- C10: when both metadata arrays are present but the class-names array is
strictly shorter than the class-values array, `NewCategoryCounts` panics with
an index-out-of-range error rather than returning an error value; an error
value is returned exactly when one of the two metadata fields is absent or not
an array. -/
theorem newCategoryCounts_short_names_panics (labels : List String) (values : List Int)
    (hshort : labels.length < values.length) :
    NewCategoryCounts { classNames := some labels, classValues := some values } =
      ConstructResult.panicked ∧
    (∀ md : Metadata, (∃ e, NewCategoryCounts md = ConstructResult.err e) ↔
      (md.classNames = none ∨ md.classValues = none)) := by
  constructor
  · simp only [NewCategoryCounts, getCategoryNames, getCategoryValues]
    rw [buildCategoriesLoop_short_labels _ _ _ _ _ (by omega) (by simp; omega)]
  · intro md
    rcases md with ⟨names, vals⟩
    constructor
    · rintro ⟨e, he⟩
      cases names with
      | none => exact Or.inl rfl
      | some ls =>
        cases vals with
        | none => exact Or.inr rfl
        | some vs =>
          exfalso
          simp only [NewCategoryCounts, getCategoryNames, getCategoryValues] at he
          rcases hb : buildCategoriesLoop ls 0 (fun _ => 0) []
              (vs.map (fun v => Int.emod v 65536)) with _ | im <;>
            rw [hb] at he <;> exact (ConstructResult.noConfusion he)
    · rintro (h | h)
      · cases h
        exact ⟨_, rfl⟩
      · cases h
        cases names with
        | none => exact ⟨_, rfl⟩
        | some ls => exact ⟨_, rfl⟩

/-- C10 witness: metadata with one label and two values panics. -/
theorem newCategoryCounts_short_names_panics_witness :
    NewCategoryCounts { classNames := some ["water"], classValues := some [1, 2] } =
      ConstructResult.panicked :=
  (newCategoryCounts_short_names_panics ["water"] [1, 2] (by decide)).1

/-- C4 counterexample: on descriptors `{1 : water, 2 : forest}` and pixel
values `[1, 1, 2, 9]`, the raw category counts are NOT `[2, 1]`. -/
theorem categoryCountsRaw_unrecognized_cex :
    CategoryCountsRaw_Transform c4 [mkImage [1, 1, 2, 9]] ≠ Except.ok [2, 1] := by
  have ht1 : truncToInt 1 = 1 := by norm_num [truncToInt]
  have ht2 : truncToInt 2 = 2 := by norm_num [truncToInt]
  have ht9 : truncToInt 9 = 9 := by norm_num [truncToInt]
  have h1 : Int.emod 1 65536 = 1 := by decide
  have h2 : Int.emod 2 65536 = 2 := by decide
  simp only [CategoryCountsRaw_Transform, computeCounts, c4, NewCategoryCounts, md4,
    getCategoryNames, getCategoryValues, List.map, h1, h2, buildCategoriesLoop,
    List.getElem?_cons_zero, List.getElem?_cons_succ, mkImage, List.getD, List.foldl,
    List.replicate, incAt, ht1, ht2, ht9]
  norm_num

/-- C4 (amended): a pixel value with no matching descriptor is looked up
through the Go map's zero-value-for-missing-key semantics, yielding index 0,
so it is counted toward the first-listed class: pixels `[1, 1, 2, 9]` with
descriptors `{1 : water, 2 : forest}` yield counts `[3, 1]`, the unrecognized
value 9 inflating the count of `water` (descriptor index 0). -/
theorem categoryCountsRaw_unrecognized_to_index0 :
    CategoryCountsRaw_Transform c4 [mkImage [1, 1, 2, 9]] = Except.ok [3, 1] ∧
    c4.IndexMap 9 = 0 ∧ c4.IndexMap 1 = 0 ∧ c4.IndexMap 2 = 1 := by
  have ht1 : truncToInt 1 = 1 := by norm_num [truncToInt]
  have ht2 : truncToInt 2 = 2 := by norm_num [truncToInt]
  have ht9 : truncToInt 9 = 9 := by norm_num [truncToInt]
  have h1 : Int.emod 1 65536 = 1 := by decide
  have h2 : Int.emod 2 65536 = 2 := by decide
  refine ⟨?_, ?_, ?_, ?_⟩ <;>
    simp only [CategoryCountsRaw_Transform, computeCounts, c4, NewCategoryCounts, md4,
      getCategoryNames, getCategoryValues, List.map, h1, h2, buildCategoriesLoop,
      List.getElem?_cons_zero, List.getElem?_cons_succ, mkImage, List.getD, List.foldl,
      List.replicate, incAt, ht1, ht2, ht9] <;>
    norm_num

/-- On natural-number-valued samples the source's pixel computation (with its
`int32` truncations) agrees with the spec's formula. -/
theorem ndviPixel_natCast (n r : ℕ) :
    ndviPixel (n : ℚ) (r : ℚ) = specNDVIPixel (n : ℚ) (r : ℚ) := by
  by_cases hn : n = 0 <;> by_cases hr : r = 0
  · subst hn; subst hr; simp [ndviPixel, specNDVIPixel]
  all_goals
    rw [ndviPixel, if_pos (by simp [Nat.cast_eq_zero, hn, hr]),
      specNDVIPixel, if_neg (by simp [Nat.cast_eq_zero, hn, hr]),
      truncToInt_natCast, truncToInt_natCast]
    push_cast
    ring_nf

/-- The index-driven accumulation loop of `MeanNDVI.Transform` visits exactly
the pointwise combinations of the two sample lists when they have equal
length. -/
theorem range_map_getD_eq_zipWith (f : ℚ → ℚ → ℚ) :
    ∀ (xs ys : List ℚ), xs.length = ys.length →
      (List.range xs.length).map (fun i => f (xs.getD i 0) (ys.getD i 0)) =
        List.zipWith f xs ys := by
  intro xs
  induction xs with
  | nil => intro ys h; simp
  | cons x xs ih =>
    intro ys h
    cases ys with
    | nil => simp at h
    | cons y ys =>
      simp only [List.length_cons, List.range_succ_eq_map, List.map_cons, List.map_map,
        List.zipWith_cons_cons, List.getD_cons_zero]
      refine congrArg (List.cons (f x y)) ?_
      rw [← ih ys (by simpa using h)]
      apply List.map_congr_left
      intro i _
      simp [List.getD_cons_succ]

/-- Pointwise agreement lifts to the zipped sample lists. -/
theorem zipWith_ndviPixel_eq_spec :
    ∀ (as bs : List ℕ),
      List.zipWith ndviPixel (as.map (fun n => (Nat.cast n : ℚ))) (bs.map (fun n => (Nat.cast n : ℚ))) =
        List.zipWith specNDVIPixel (as.map (fun n => (Nat.cast n : ℚ))) (bs.map (fun n => (Nat.cast n : ℚ))) := by
  intro as
  induction as with
  | nil => intro bs; simp only [List.map_nil, List.zipWith_nil_left]
  | cons a as ih =>
    intro bs
    cases bs with
    | nil => simp only [List.map_nil, List.zipWith_nil_right]
    | cons b bs =>
      simp only [List.map_cons, List.zipWith_cons_cons]
      rw [ndviPixel_natCast a b, ih bs]

/-- C3 (amended): on equal-length bands whose samples are (in-range) natural
numbers — the case produced by the 8/16-bit raster decoders — `MeanNDVI.Transform`
returns exactly the arithmetic mean of the spec's per-pixel values
`max(0, (nir - red)/(nir + red))` (with `0` at an all-zero pixel pair). -/
theorem meanNDVI_Transform_spec_on_integers (ns rs : List ℕ) (hlen : ns.length = rs.length)
    (hns : ∀ x ∈ ns, x < 2 ^ 30) (hrs : ∀ x ∈ rs, x < 2 ^ 30) :
    MeanNDVI_Transform [mkImage (ns.map (fun n => (Nat.cast n : ℚ))), mkImage (rs.map (fun n => (Nat.cast n : ℚ)))] =
      Except.ok [(List.zipWith specNDVIPixel (ns.map (fun n => (Nat.cast n : ℚ)))
        (rs.map (fun n => (Nat.cast n : ℚ)))).sum / (ns.length : ℚ)] := by
  simp only [MeanNDVI_Transform, mkImage, List.getD_cons_zero, List.getD_cons_succ]
  unfold meanNDVI_core
  rw [range_map_getD_eq_zipWith ndviPixel _ _
      (by rw [List.length_map, List.length_map]; exact hlen),
    zipWith_ndviPixel_eq_spec, List.length_map]

/-- C3 witness: `nir = [8, 0]`, `red = [2, 0]` yields per-pixel values
`[3/5, 0]` and mean `3/10`. -/
theorem meanNDVI_Transform_spec_on_integers_witness :
    MeanNDVI_Transform [mkImage [(8 : ℚ), 0], mkImage [(2 : ℚ), 0]] = Except.ok [3/10] := by
  have h := meanNDVI_Transform_spec_on_integers [8, 0] [2, 0] rfl (by decide) (by decide)
  have h2 : ([8, 0] : List ℕ).map (fun n => (Nat.cast n : ℚ)) = [8, 0] := by norm_num
  have h3 : ([2, 0] : List ℕ).map (fun n => (Nat.cast n : ℚ)) = [2, 0] := by norm_num
  rw [h2, h3] at h
  rw [h]
  norm_num [specNDVIPixel]

/-- C3 counterexample: on the fractional samples `nir = [2.5]`, `red = [0.5]`
the source truncates through `int32` and returns `[1]`, while the spec's
formula `max(0, (nir - red)/(nir + red))` gives mean `2/3 ≠ 1`. -/
theorem meanNDVI_Transform_fractional_cex :
    MeanNDVI_Transform [mkImage [(5 : ℚ)/2], mkImage [(1 : ℚ)/2]] = Except.ok [1] ∧
    (List.zipWith specNDVIPixel [(5 : ℚ)/2] [(1 : ℚ)/2]).sum / ((1 : ℕ) : ℚ) = 2/3 ∧
    (1 : ℚ) ≠ 2/3 := by
  refine ⟨?_, ?_, by norm_num⟩
  · norm_num [MeanNDVI_Transform, mkImage, meanNDVI_core, List.range_succ, ndviPixel,
      truncToInt, show Int.tdiv 5 2 = 2 from by decide, show Int.tdiv 1 2 = 0 from by decide]
  · norm_num [specNDVIPixel]

/-- Incrementing one entry preserves the length of a count vector. -/
theorem incAt_length : ∀ (l : List ℚ) (i : ℕ), (incAt l i).length = l.length := by
  intro l
  induction l with
  | nil => intro i; rfl
  | cons x xs ih =>
    intro i
    cases i with
    | zero => rfl
    | succ n => simp [incAt, ih n]

/-- Incrementing an in-range entry adds exactly one to the total. -/
theorem incAt_sum : ∀ (l : List ℚ) (i : ℕ), i < l.length → (incAt l i).sum = l.sum + 1 := by
  intro l
  induction l with
  | nil => intro i h; simp at h
  | cons x xs ih =>
    intro i h
    cases i with
    | zero => simp [incAt]; ring
    | succ n =>
      simp only [incAt, List.sum_cons]
      rw [ih n (by simpa using h)]
      ring

/-- The counting loop of `computeCounts` adds one per pixel: every pixel lands
in some in-range bucket, so the counts total the pixel count. -/
theorem foldl_incAt_sum (f : ℚ → ℕ) :
    ∀ (data counts : List ℚ), (∀ q, f q < counts.length) →
      (data.foldl (fun cs val => incAt cs (f val)) counts).sum = counts.sum + data.length := by
  intro data
  induction data with
  | nil => intro counts _; simp
  | cons v rest ih =>
    intro counts h
    simp only [List.foldl_cons, List.length_cons]
    rw [ih (incAt counts (f v)) (fun q => by rw [incAt_length]; exact h q),
      incAt_sum counts (f v) (h v)]
    push_cast
    ring

/-- Dividing each entry by a constant divides the total. -/
theorem sum_map_div (l : List ℚ) (T : ℚ) : (l.map (fun x => x / T)).sum = l.sum / T := by
  induction l with
  | nil => simp
  | cons x xs ih => simp only [List.map_cons, List.sum_cons, ih, add_div]

/-- C9: for a decoded band whose sample count equals `XSize * YSize` (with at
least one pixel) and a category operation whose index map stays in range (the
invariant established by `NewCategoryCounts`), `CategoryCountsPercentage.Transform`
returns exactly the raw counts of `computeCounts` divided by `XSize * YSize`,
and those values sum to exactly 1 — in particular to at most 1. -/
theorem categoryCountsPercentage_div_and_sum (c : CategoryCounts) (img : GeoImage)
    (rest : List GeoImage)
    (hidx : ∀ v : ℤ, c.IndexMap v < c.Categories.length)
    (hlen : img.Data.length = img.XSize * img.YSize)
    (hpos : 0 < img.XSize * img.YSize) :
    ∃ raw, computeCounts c (img :: rest) = Except.ok raw ∧
      CategoryCountsPercentage_Transform c (img :: rest) =
        Except.ok (raw.map (fun count => count / ((img.XSize * img.YSize : ℕ) : ℚ))) ∧
      (raw.map (fun count => count / ((img.XSize * img.YSize : ℕ) : ℚ))).sum = 1 ∧
      (raw.map (fun count => count / ((img.XSize * img.YSize : ℕ) : ℚ))).sum ≤ 1 := by
  have hne : ¬ (c.Categories.length = 0) := by have := hidx 0; omega
  have hcc : computeCounts c (img :: rest) =
      Except.ok (img.Data.foldl
        (fun categoryCounts val => incAt categoryCounts (c.IndexMap (truncToInt val)))
        (List.replicate c.Categories.length 0)) := by
    rw [computeCounts, if_neg hne]
    simp only [List.getD_cons_zero]
  have hsum : ((img.Data.foldl
        (fun categoryCounts val => incAt categoryCounts (c.IndexMap (truncToInt val)))
        (List.replicate c.Categories.length 0)).map
          (fun count => count / ((img.XSize * img.YSize : ℕ) : ℚ))).sum = 1 := by
    rw [sum_map_div,
      foldl_incAt_sum _ img.Data _ (fun q => by rw [List.length_replicate]; exact hidx _)]
    rw [List.sum_replicate, hlen, smul_zero, zero_add, div_self]
    exact Nat.cast_ne_zero.mpr (by omega)
  refine ⟨_, hcc, ?_, hsum, le_of_eq hsum⟩
  rw [CategoryCountsPercentage_Transform, hcc]
  simp only [List.getD_cons_zero]

/-- C9 witness: one category, a 2×1 band with both pixels recognized. -/
theorem categoryCountsPercentage_div_and_sum_witness :
    ∃ raw, computeCounts c9c [mkImage [1, 1]] = Except.ok raw ∧
      CategoryCountsPercentage_Transform c9c [mkImage [1, 1]] =
        Except.ok (raw.map (fun count =>
          count / (((mkImage [1, 1]).XSize * (mkImage [1, 1]).YSize : ℕ) : ℚ))) ∧
      (raw.map (fun count =>
        count / (((mkImage [1, 1]).XSize * (mkImage [1, 1]).YSize : ℕ) : ℚ))).sum = 1 ∧
      (raw.map (fun count =>
        count / (((mkImage [1, 1]).XSize * (mkImage [1, 1]).YSize : ℕ) : ℚ))).sum ≤ 1 :=
  categoryCountsPercentage_div_and_sum c9c (mkImage [1, 1]) []
    (fun v => by simp [c9c]) (by decide) (by decide)

/-- When `Setup` reports failures as ordinary errors (no `os.Exit`), the
worker loop completes normally and its rows are exactly the per-tile results
of its share of the queue, in order. -/
theorem tileWorkerLoop_no_exit (setup : Tile → Except String (List GeoImage))
    (transform : List GeoImage → Except String (List ℚ)) :
    ∀ (tiles : List Tile) (st : WorkerState), ∃ st',
      tileWorkerLoop (fun t => ProcResult.ok (setup t)) transform tiles st = ProcResult.ok st' ∧
      st'.rows = st.rows ++ tiles.filterMap (processTile setup transform) := by
  intro tiles
  induction tiles with
  | nil => intro st; exact ⟨st, rfl, by simp⟩
  | cons tile rest ih =>
    intro st
    cases hs : setup tile with
    | error e =>
      obtain ⟨st', h1, h2⟩ :=
        ih { st with setupErrCount := st.setupErrCount + 1, lastSetupErr := some e }
      refine ⟨st', ?_, ?_⟩
      · simp only [tileWorkerLoop, hs]
        exact h1
      · rw [h2]
        simp [processTile, hs]
    | ok images =>
      cases ht : transform images with
      | error e =>
        obtain ⟨st', h1, h2⟩ :=
          ih { st with transformErrCount := st.transformErrCount + 1,
                       lastTransformErr := some e }
        refine ⟨st', ?_, ?_⟩
        · simp only [tileWorkerLoop, hs, ht]
          exact h1
        · rw [h2]
          simp [processTile, hs, ht]
      | ok values =>
        obtain ⟨st', h1, h2⟩ :=
          ih { st with rows := st.rows ++
            [{ tileId := tile.GeoHash, timestamp := tile.Timestamp,
               bounds := (images.getD 0 default).Bounds, values := values }] }
        refine ⟨st', ?_, ?_⟩
        · simp only [tileWorkerLoop, hs, ht]
          exact h1
        · rw [h2]
          simp [processTile, hs, ht]

/-- A worker's contribution is the `filterMap` of the per-tile result over its
share of the queue. -/
theorem workerRows_eq_filterMap (setup : Tile → Except String (List GeoImage))
    (transform : List GeoImage → Except String (List ℚ)) (tiles : List Tile) :
    workerRows setup transform tiles = tiles.filterMap (processTile setup transform) := by
  obtain ⟨st', h1, h2⟩ := tileWorkerLoop_no_exit setup transform tiles initWorkerState
  rw [workerRows, h1]
  simpa [initWorkerState] using h2

/-- C5: the pool's output multiset is determined by the tile array alone: for
ANY schedule of the shared queue (any split of the tile array across any
number of workers, each tile delivered to exactly one worker) the merged rows
are the per-tile results of the whole array. In particular the schedules that
`W = 1` and `W = 8` produce yield the same multiset — the same set of rows up
to order. -/
theorem processTiles_worker_count_independent (setup : Tile → Except String (List GeoImage))
    (transform : List GeoImage → Except String (List ℚ)) (tileArray : List Tile)
    (batches : List (List Tile)) (hperm : batches.flatten.Perm tileArray) :
    poolRows setup transform batches =
      ↑(tileArray.filterMap (processTile setup transform)) := by
  unfold poolRows
  rw [List.map_congr_left (fun b _ => workerRows_eq_filterMap setup transform b),
    ← List.filterMap_flatten]
  exact Multiset.coe_eq_coe.mpr (hperm.filterMap _)

/-- C5 witness: two tiles split across two workers in reverse order produce
the same multiset of rows as the whole array. -/
theorem processTiles_worker_count_independent_witness :
    poolRows setup5 transform5 [[tile2], [tile1]] =
      ↑([tile1, tile2].filterMap (processTile setup5 transform5)) :=
  processTiles_worker_count_independent setup5 transform5 [tile1, tile2] [[tile2], [tile1]]
    (by decide)

/-- Correctness of Go's `sort.Search` binary-search loop on a predicate that
is monotone below `j` (fuel-indexed induction): the result `r` lies in
`[i, j]`, every index below `r` fails the predicate, and `r` satisfies it
unless `r = j`. -/
theorem sortSearchAux_spec (f : ℕ → Bool) :
    ∀ (n i j : ℕ), j - i ≤ n → i ≤ j →
      (∀ a b, i ≤ a → a ≤ b → b < j → f a = true → f b = true) →
      i ≤ sortSearchAux f i j ∧ sortSearchAux f i j ≤ j ∧
      (∀ k, i ≤ k → k < sortSearchAux f i j → f k = false) ∧
      (sortSearchAux f i j < j → f (sortSearchAux f i j) = true) := by
  intro n
  induction n with
  | zero =>
    intro i j hfuel hij hmono
    have hij' : ¬ i < j := by omega
    rw [sortSearchAux, if_neg hij']
    exact ⟨le_refl i, hij, fun k h1 h2 => by omega, fun hr => by omega⟩
  | succ n ih =>
    intro i j hfuel hij hmono
    by_cases h : i < j
    · rw [sortSearchAux, if_pos h]
      have him : i ≤ (i + j) / 2 := by omega
      have hmj : (i + j) / 2 < j := by omega
      by_cases hf : f ((i + j) / 2) = true
      · rw [if_pos hf]
        obtain ⟨h1, h2, h3, h4⟩ := ih i ((i + j) / 2) (by omega) him
          (fun a b ha hab hb => hmono a b ha hab (by omega))
        refine ⟨h1, by omega, h3, ?_⟩
        intro hr
        by_cases hrm : sortSearchAux f i ((i + j) / 2) < (i + j) / 2
        · exact h4 hrm
        · have heq : sortSearchAux f i ((i + j) / 2) = (i + j) / 2 := by omega
          rw [heq]; exact hf
      · rw [if_neg hf]
        obtain ⟨h1, h2, h3, h4⟩ := ih ((i + j) / 2 + 1) j (by omega) (by omega)
          (fun a b ha hab hb => hmono a b (by omega) hab hb)
        refine ⟨by omega, h2, ?_, h4⟩
        intro k hk1 hk2
        by_cases hkm : k ≤ (i + j) / 2
        · by_contra hc
          simp only [Bool.not_eq_false] at hc
          exact hf (hmono k ((i + j) / 2) hk1 hkm hmj hc)
        · exact h3 k (by omega) hk2
    · rw [sortSearchAux, if_neg h]
      exact ⟨le_refl i, hij, fun k h1 h2 => by omega, fun hr => absurd hr h⟩

/-- A split point below which every element satisfies `p` and at which `p`
fails realises `takeWhile`/`dropWhile`. -/
theorem take_eq_takeWhile (p : Tile → Bool) :
    ∀ (l : List Tile) (r : ℕ), r ≤ l.length →
      (∀ k, k < r → p (l.getD k default) = true) →
      (r < l.length → p (l.getD r default) = false) →
      l.take r = l.takeWhile p ∧ l.drop r = l.dropWhile p := by
  intro l
  induction l with
  | nil =>
    intro r h _ _
    have : r = 0 := by simpa using h
    subst this
    simp
  | cons x xs ih =>
    intro r hr hall hstop
    cases r with
    | zero =>
      have hx : p x = false := by simpa using hstop (by simp)
      simp [List.takeWhile_cons, List.dropWhile_cons, hx]
    | succ s =>
      have hx : p x = true := by simpa using hall 0 (by omega)
      have hrec := ih s (by simpa using hr)
        (fun k hk => by simpa using hall (k + 1) (by omega))
        (fun h => by simpa using hstop (by simpa using h))
      simp [List.takeWhile_cons, List.dropWhile_cons, hx, hrec.1, hrec.2]

/-- In a timestamp-sorted list, everything at or after the first element with
a strictly larger timestamp has a strictly larger timestamp. -/
theorem mem_dropWhile_timestamp_gt (t : Tile) :
    ∀ (l : List Tile), l.Pairwise (fun a b => a.Timestamp ≤ b.Timestamp) →
      ∀ b ∈ l.dropWhile (fun u => decide (u.Timestamp ≤ t.Timestamp)),
        t.Timestamp < b.Timestamp := by
  intro l
  induction l with
  | nil => intro _ b hb; simp at hb
  | cons x xs ih =>
    intro hp b hb
    rw [List.dropWhile_cons] at hb
    by_cases hx : x.Timestamp ≤ t.Timestamp
    · rw [if_pos (by simpa using hx)] at hb
      exact ih hp.of_cons b hb
    · rw [if_neg (by simpa using hx)] at hb
      rcases List.mem_cons.mp hb with rfl | hbxs
      · omega
      · have := (List.pairwise_cons.mp hp).1 b hbxs
        omega

/-- C8: on a timestamp-sorted tile sequence, `insertSorted` places the new
tile after ALL existing tiles with timestamp at most (in particular equal to)
its own — first-inserted tiles keep earlier positions — and the result is
again sorted, so every insertion preserves the non-decreasing order with no
final sort pass. -/
theorem insertSorted_eq_and_sorted (l : List Tile) (t : Tile)
    (hsorted : l.Pairwise (fun a b => a.Timestamp ≤ b.Timestamp)) :
    insertSorted l t =
      l.takeWhile (fun u => decide (u.Timestamp ≤ t.Timestamp)) ++ t ::
        l.dropWhile (fun u => decide (u.Timestamp ≤ t.Timestamp)) ∧
    (insertSorted l t).Pairwise (fun a b => a.Timestamp ≤ b.Timestamp) := by
  have hmono : ∀ a b, 0 ≤ a → a ≤ b → b < l.length →
      (fun i => decide ((l.getD i default).Timestamp > t.Timestamp)) a = true →
      (fun i => decide ((l.getD i default).Timestamp > t.Timestamp)) b = true := by
    intro a b _ hab hb hfa
    simp only [decide_eq_true_eq] at hfa ⊢
    rcases Nat.eq_or_lt_of_le hab with rfl | hlt
    · exact hfa
    · have ha : a < l.length := by omega
      have hle : (l.getD a default).Timestamp ≤ (l.getD b default).Timestamp := by
        rw [List.getD_eq_getElem l default ha, List.getD_eq_getElem l default hb]
        exact List.pairwise_iff_getElem.mp hsorted a b ha hb hlt
      omega
  obtain ⟨hs1, hs2, hs3, hs4⟩ := sortSearchAux_spec
    (fun i => decide ((l.getD i default).Timestamp > t.Timestamp))
    l.length 0 l.length (by omega) (by omega)
    (fun a b ha hab hb hfa => hmono a b ha hab hb hfa)
  have hss : sortSearch l.length
      (fun i => decide ((l.getD i default).Timestamp > t.Timestamp)) =
    sortSearchAux (fun i => decide ((l.getD i default).Timestamp > t.Timestamp))
      0 l.length := rfl
  rw [← hss] at hs1 hs2 hs3 hs4
  have heq : l.take (sortSearch l.length
        (fun i => decide ((l.getD i default).Timestamp > t.Timestamp))) =
      l.takeWhile (fun u => decide (u.Timestamp ≤ t.Timestamp)) ∧
      l.drop (sortSearch l.length
        (fun i => decide ((l.getD i default).Timestamp > t.Timestamp))) =
      l.dropWhile (fun u => decide (u.Timestamp ≤ t.Timestamp)) := by
    apply take_eq_takeWhile
    · exact hs2
    · intro k hk
      have hfk := hs3 k (by omega) hk
      simp only [decide_eq_true_eq, decide_eq_false_iff_not] at hfk ⊢
      omega
    · intro hrlen
      have hfr := hs4 hrlen
      simp only [decide_eq_true_eq, decide_eq_false_iff_not] at hfr ⊢
      omega
  have hins : insertSorted l t =
      l.take (sortSearch l.length
        (fun i => decide ((l.getD i default).Timestamp > t.Timestamp))) ++ t ::
      l.drop (sortSearch l.length
        (fun i => decide ((l.getD i default).Timestamp > t.Timestamp))) := rfl
  constructor
  · rw [hins, heq.1, heq.2]
  · rw [hins, heq.1, heq.2, List.pairwise_append]
    refine ⟨List.Pairwise.sublist (List.takeWhile_sublist _) hsorted, ?_, ?_⟩
    · rw [List.pairwise_cons]
      exact ⟨fun b hb => le_of_lt (mem_dropWhile_timestamp_gt t l hsorted b hb),
        List.Pairwise.sublist (List.dropWhile_sublist _) hsorted⟩
    · intro a ha b hb
      have ha' : a.Timestamp ≤ t.Timestamp := by
        simpa using List.mem_takeWhile_imp ha
      rcases List.mem_cons.mp hb with rfl | hb'
      · exact ha'
      · have := mem_dropWhile_timestamp_gt t l hsorted b hb'
        omega

/-- C8 witness: inserting a tile with timestamp 1 into a sorted list whose
head already has timestamp 1 places the new tile after it. -/
theorem insertSorted_eq_and_sorted_witness :
    insertSorted [{ GeoHash := "A".toList, Date := "d1".toList, Timestamp := 1 },
                  { GeoHash := "B".toList, Date := "d2".toList, Timestamp := 3 }]
        { GeoHash := "C".toList, Date := "d3".toList, Timestamp := 1 } =
      [{ GeoHash := "A".toList, Date := "d1".toList, Timestamp := 1 },
       { GeoHash := "C".toList, Date := "d3".toList, Timestamp := 1 },
       { GeoHash := "B".toList, Date := "d2".toList, Timestamp := 3 }] := by
  rw [(insertSorted_eq_and_sorted
    [{ GeoHash := "A".toList, Date := "d1".toList, Timestamp := 1 },
     { GeoHash := "B".toList, Date := "d2".toList, Timestamp := 3 }]
    { GeoHash := "C".toList, Date := "d3".toList, Timestamp := 1 } (by decide)).1]
  decide

/-- Inserting a tile adds exactly its own contribution to any count. -/
theorem countP_insertSorted (p : Tile → Bool) (l : List Tile) (t : Tile) :
    (insertSorted l t).countP p = l.countP p + if p t then 1 else 0 := by
  simp only [insertSorted, List.countP_append, List.countP_cons]
  rw [← Nat.add_assoc, ← List.countP_append, List.take_append_drop]

/-- `strings.Split` always yields at least one segment. -/
theorem splitOnChar_ne_nil (c : Char) : ∀ (s : Str), splitOnChar c s ≠ [] := by
  intro s
  induction s with
  | nil => simp [splitOnChar]
  | cons x xs ih =>
    by_cases hx : x = c
    · simp [splitOnChar, hx]
    · rw [splitOnChar, if_neg hx]
      cases h : splitOnChar c xs with
      | nil => exact absurd h ih
      | cons hd tl => simp

/-- No segment produced by `strings.Split` contains the separator. -/
theorem splitOnChar_not_mem (c : Char) :
    ∀ (s : Str), ∀ p ∈ splitOnChar c s, c ∉ p := by
  intro s
  induction s with
  | nil =>
    intro p hp
    simp [splitOnChar] at hp
    simp [hp]
  | cons x xs ih =>
    intro p hp
    by_cases hx : x = c
    · rw [splitOnChar, if_pos hx] at hp
      rcases List.mem_cons.mp hp with rfl | hp'
      · simp
      · exact ih p hp'
    · rw [splitOnChar, if_neg hx] at hp
      cases h : splitOnChar c xs with
      | nil => exact absurd h (splitOnChar_ne_nil c xs)
      | cons hd tl =>
        rw [h] at hp
        rcases List.mem_cons.mp hp with rfl | hp'
        · intro hc
          rcases List.mem_cons.mp hc with rfl | hc'
          · exact hx rfl
          · exact ih hd (h ▸ List.mem_cons_self hd tl) hc'
        · exact ih p (h ▸ List.mem_cons_of_mem hd hp')

/-- The dedup key determines the (id, date) pair, when the pair on one side is
separator-free (as every parsed pair is). -/
theorem tileKey_inj :
    ∀ (id id₀ d d₀ : Str), tileKey id d = tileKey id₀ d₀ → '_' ∉ id₀ → '_' ∉ d₀ →
      id = id₀ ∧ d = d₀ := by
  intro id
  induction id with
  | nil =>
    intro id₀ d d₀ h hid₀ hd₀
    cases id₀ with
    | nil => exact ⟨rfl, by simpa [tileKey] using h⟩
    | cons c id₀' =>
      exfalso
      simp only [tileKey, List.nil_append, List.cons_append, List.cons.injEq] at h
      exact hid₀ (h.1 ▸ List.mem_cons_self c id₀')
  | cons a id' ih =>
    intro id₀ d d₀ h hid₀ hd₀
    cases id₀ with
    | nil =>
      exfalso
      simp only [tileKey, List.nil_append, List.cons_append, List.cons.injEq] at h
      apply hd₀
      rw [← h.2]
      exact List.mem_append_right _ (List.mem_cons_self '_' d)
    | cons b id₀' =>
      simp only [tileKey, List.cons_append, List.cons.injEq] at h
      obtain ⟨rfl, h2⟩ := h
      obtain ⟨h3, h4⟩ := ih id₀' d d₀ h2 (fun hm => hid₀ (List.mem_cons_of_mem _ hm)) hd₀
      exact ⟨by rw [h3], h4⟩

/-- Reduction of `parseName` once the split of the file name is known to have
at least two segments. -/
theorem parseName_split (name seg0 seg1 : Str) (rest : List Str)
    (h : splitOnChar '_' name = seg0 :: seg1 :: rest) :
    parseName name = match parseDateToken seg1 with
      | none => none
      | some pt => some (seg0, seg1, unixOf pt) := by
  rw [parseName, h]

/-- Both components of a successfully parsed file name are separator-free:
they are segments of the split. -/
theorem parseName_no_underscore (name id d : Str) (ts : ℤ)
    (h : parseName name = some (id, d, ts)) : '_' ∉ id ∧ '_' ∉ d := by
  cases hsp : splitOnChar '_' name with
  | nil => rw [parseName, hsp] at h; cases h
  | cons seg0 segs =>
    cases segs with
    | nil => rw [parseName, hsp] at h; cases h
    | cons seg1 rest =>
      rw [parseName_split name seg0 seg1 rest hsp] at h
      cases hp : parseDateToken seg1 with
      | none => rw [hp] at h; cases h
      | some pt =>
        rw [hp] at h
        injection h with h1
        injection h1 with ha hb
        injection hb with hb1 hb2
        subst ha; subst hb1
        exact ⟨splitOnChar_not_mem '_' name seg0 (hsp ▸ List.mem_cons_self _ _),
          splitOnChar_not_mem '_' name seg1
            (hsp ▸ List.mem_cons_of_mem _ (List.mem_cons_self _ _))⟩

/-- Reduction of `nameMatches` on an unparseable name. -/
theorem nameMatches_none (id d name : Str) (h : parseName name = none) :
    nameMatches id d name = false := by
  simp [nameMatches, h]

/-- Reduction of `nameMatches` on a parsed name. -/
theorem nameMatches_parse (id d name id₀ d₀ : Str) (ts₀ : ℤ)
    (h : parseName name = some (id₀, d₀, ts₀)) :
    (nameMatches id d name = true) ↔ (id₀ = id ∧ d₀ = d) := by
  simp [nameMatches, h]

/-- One unfolding step of `hasEntry`. -/
theorem hasEntry_cons (name : Str) (rest : List Str) (id d : Str) :
    (hasEntry (name :: rest) id d = true) ↔
      ((name ≠ metadataFileName ∧ nameMatches id d name = true) ∨
        hasEntry rest id d = true) := by
  simp [hasEntry, List.any_cons]

/-- The scan-loop invariant of `createTileMap`: starting from a state whose
dedup keys are canonical and whose per-(id, date) tile counts match key
membership, the final catalog holds exactly one tile per (id, date) pair that
is either already recorded or occurs among the remaining well-formed names. -/
theorem createTileMapLoop_countP :
    ∀ (files : List Str) (parsed : List Str) (m : Str → List Tile),
      (∀ k ∈ parsed, ∃ id₀ d₀, k = tileKey id₀ d₀ ∧ '_' ∉ id₀ ∧ '_' ∉ d₀) →
      (∀ id d, (m id).countP (fun u => decide (u.Date = d)) =
        if tileKey id d ∈ parsed then 1 else 0) →
      ∀ id d, ((createTileMapLoop files parsed m) id).countP (fun u => decide (u.Date = d)) =
        if (tileKey id d ∈ parsed ∨ hasEntry files id d = true) then 1 else 0 := by
  intro files
  induction files with
  | nil =>
    intro parsed m _ hinv id d
    simp only [createTileMapLoop]
    rw [hinv id d]
    have hfalse : hasEntry [] id d = false := rfl
    rw [hfalse]
    simp
  | cons name rest ih =>
    intro parsed m hkeys hinv id d
    simp only [createTileMapLoop]
    by_cases hmeta : name = metadataFileName
    · rw [if_pos hmeta, ih parsed m hkeys hinv id d]
      apply if_congr _ rfl rfl
      rw [hasEntry_cons]
      constructor
      · rintro (h | h)
        · exact Or.inl h
        · exact Or.inr (Or.inr h)
      · rintro (h | (⟨hne, _⟩ | h))
        · exact Or.inl h
        · exact absurd hmeta hne
        · exact Or.inr h
    · rw [if_neg hmeta]
      cases hparse : parseName name with
      | none =>
        simp only [hparse]
        rw [ih parsed m hkeys hinv id d]
        apply if_congr _ rfl rfl
        rw [hasEntry_cons, nameMatches_none id d name hparse]
        constructor
        · rintro (h | h)
          · exact Or.inl h
          · exact Or.inr (Or.inr h)
        · rintro (h | (⟨_, h⟩ | h))
          · exact Or.inl h
          · cases h
          · exact Or.inr h
      | some triple =>
        obtain ⟨id₀, d₀, ts₀⟩ := triple
        simp only [hparse]
        have hcanon := parseName_no_underscore name id₀ d₀ ts₀ hparse
        by_cases hdup : tileKey id₀ d₀ ∈ parsed
        · rw [if_pos hdup, ih parsed m hkeys hinv id d]
          apply if_congr _ rfl rfl
          rw [hasEntry_cons, nameMatches_parse id d name id₀ d₀ ts₀ hparse]
          constructor
          · rintro (h | h)
            · exact Or.inl h
            · exact Or.inr (Or.inr h)
          · rintro (h | (⟨_, h1, h2⟩ | h))
            · exact Or.inl h
            · exact Or.inl (by rw [← h1, ← h2]; exact hdup)
            · exact Or.inr h
        · rw [if_neg hdup]
          have hkeys' : ∀ k ∈ tileKey id₀ d₀ :: parsed,
              ∃ a b, k = tileKey a b ∧ '_' ∉ a ∧ '_' ∉ b := by
            intro k hk
            rcases List.mem_cons.mp hk with rfl | hk'
            · exact ⟨id₀, d₀, rfl, hcanon.1, hcanon.2⟩
            · exact hkeys k hk'
          have hinv' : ∀ a b, ((fun i => if i = id₀ then
                insertSorted (m id₀) { GeoHash := id₀, Date := d₀, Timestamp := ts₀ }
              else m i) a).countP (fun u => decide (u.Date = b)) =
              if tileKey a b ∈ tileKey id₀ d₀ :: parsed then 1 else 0 := by
            intro a b
            by_cases ha : a = id₀
            · subst ha
              change List.countP (fun u => decide (u.Date = b))
                (if a = a then insertSorted (m a)
                  { GeoHash := a, Date := d₀, Timestamp := ts₀ } else m a) = _
              rw [if_pos rfl, countP_insertSorted, hinv a b]
              by_cases hb : b = d₀
              · subst hb
                rw [if_neg hdup, if_pos (List.mem_cons_self _ _)]
                simp
              · have hpt : (decide (Tile.Date { GeoHash := a, Date := d₀, Timestamp := ts₀ } = b)) = false := by
                  simp only [decide_eq_false_iff_not]
                  exact fun hc => hb hc.symm
                rw [hpt]
                simp only [Bool.false_eq_true, if_false, Nat.add_zero]
                apply if_congr _ rfl rfl
                simp only [List.mem_cons]
                constructor
                · exact Or.inr
                · rintro (hkey | h)
                  · exfalso
                    simp only [tileKey, List.append_cancel_left_eq, List.cons.injEq] at hkey
                    exact hb hkey.2
                  · exact h
            · change List.countP (fun u => decide (u.Date = b))
                (if a = id₀ then insertSorted (m id₀)
                  { GeoHash := id₀, Date := d₀, Timestamp := ts₀ } else m a) = _
              rw [if_neg ha, hinv a b]
              apply if_congr _ rfl rfl
              simp only [List.mem_cons]
              constructor
              · exact Or.inr
              · rintro (hkey | h)
                · exact absurd (tileKey_inj a id₀ b d₀ hkey hcanon.1 hcanon.2).1 ha
                · exact h
          rw [ih (tileKey id₀ d₀ :: parsed) _ hkeys' hinv' id d]
          apply if_congr _ rfl rfl
          rw [hasEntry_cons, nameMatches_parse id d name id₀ d₀ ts₀ hparse]
          simp only [List.mem_cons]
          constructor
          · rintro ((hkey | hmem) | hrest)
            · obtain ⟨h1, h2⟩ := tileKey_inj id id₀ d d₀ hkey hcanon.1 hcanon.2
              exact Or.inr (Or.inl ⟨hmeta, h1.symm, h2.symm⟩)
            · exact Or.inl hmem
            · exact Or.inr (Or.inr hrest)
          · rintro (hmem | (⟨_, h1, h2⟩ | hrest))
            · exact Or.inl (Or.inr hmem)
            · exact Or.inl (Or.inl (by rw [← h1, ← h2]))
            · exact Or.inr hrest

/-- C7: the catalog built by `createTileMap` holds, for every (id, date) pair,
exactly one tile when the pair occurs among well-formed non-metadata file
names of the scan and none otherwise — malformed entries and later duplicates
contribute nothing (and since a tile is fully determined by its (id, date)
pair, the retained tile is the one the first occurrence built). -/
theorem createTileMap_unique_per_pair :
    ∀ (files : List Str) (id d : Str),
      ((createTileMap files) id).countP (fun u => decide (u.Date = d)) =
        if hasEntry files id d = true then 1 else 0 := by
  intro files id d
  rw [createTileMap, createTileMapLoop_countP files [] (fun _ => [])
    (by intro k hk; cases hk)
    (by intro id' d'; simp)]
  apply if_congr _ rfl rfl
  simp
